import Mathlib

/-
Verification development for ImageResizerGo (src/main.go).

The program batch-resizes images: it loads a configuration (input/output
directories and a list of presets), discovers image files, and for every
(preset, file) pair launches a goroutine that opens the image, applies one
of three geometric transforms (crop / fill / fit, implemented by the
disintegration/imaging library the program depends on), and saves the
result to outputDir/<preset.name>_<file>.

Modelling conventions:
  - Go strings are modelled as lists of characters (Str).
  - Go int is modelled as Int; Go integer division truncates toward zero,
    which is Int.tdiv.
  - Images are modelled at the dimension level (width and height of the
    pixel buffer, bounds (0,0)-(w,h)); the geometric functions of the
    disintegration/imaging library (CropAnchor, Fill, Fit, Resize, Crop and
    the anchor arithmetic) are embedded faithfully at that level, following
    the library source (v1.6.x). Float64 ratio computations in the library
    are modelled by the exact rational value followed by the same
    truncation the library applies; all claims are settled on inputs where
    the float computation is exact.
  - Goroutine scheduling is serialised in launch order: runDispatch runs
    the launched units one by one and stops at the first unit that
    terminates the process (log.Fatalf or a runtime panic), which models
    the fatal-error semantics of the program.
  - Filesystem effects are a World: what imaging.Open decodes at a path,
    and whether the filesystem accepts a write at a path.
-/

namespace ImageResizerGo

/-- Go strings modelled as lists of characters. -/
abbrev Str := List Char

/-- Coercion from Lean string literals to the Str model. -/
def str (s : String) : Str := s.toList

/-- Anchor enum of the imaging library. The Go zero value Anchor(0) is
Center (first constant of the iota block). -/
inductive Anchor where
  | center
  | topLeft
  | top
  | topRight
  | left
  | right
  | bottomLeft
  | bottom
  | bottomRight
deriving DecidableEq

/-- anchorMap from src/main.go lines 21-31: a Go map from anchor-name
string to imaging.Anchor. Go map indexing returns the zero value
(imaging.Center) for a missing key. The keys are exactly the ones written
in the source: all lowercase except the last one, which is bottomRight
with a capital R. -/
def anchorMap (key : Str) : Anchor :=
  if key = str "center" then .center
  else if key = str "topleft" then .topLeft
  else if key = str "top" then .top
  else if key = str "topright" then .topRight
  else if key = str "left" then .left
  else if key = str "right" then .right
  else if key = str "bottomleft" then .bottomLeft
  else if key = str "bottom" then .bottom
  else if key = str "bottomRight" then .bottomRight
  else .center

/-- The nine keys of anchorMap, in source order. -/
def anchorKeys : List Str :=
  [str "center", str "topleft", str "top", str "topright", str "left",
   str "right", str "bottomleft", str "bottom", str "bottomRight"]

/-- Go image.Rectangle. -/
structure Rect where
  minX : Int
  minY : Int
  maxX : Int
  maxY : Int
deriving DecidableEq

/-- Width of a rectangle (Go Rectangle.Dx). -/
def Rect.dx (r : Rect) : Int := r.maxX - r.minX

/-- Height of a rectangle (Go Rectangle.Dy). -/
def Rect.dy (r : Rect) : Int := r.maxY - r.minY

/-- Go image.Rect constructor: swaps the coordinates into canonical order. -/
def mkRect (x0 y0 x1 y1 : Int) : Rect :=
  { minX := if x0 > x1 then x1 else x0
    minY := if y0 > y1 then y1 else y0
    maxX := if x0 > x1 then x0 else x1
    maxY := if y0 > y1 then y0 else y1 }

/-- Go Rectangle.Add: translate a rectangle by a point. -/
def Rect.add (r : Rect) (px py : Int) : Rect :=
  ⟨r.minX + px, r.minY + py, r.maxX + px, r.maxY + py⟩

/-- Go Rectangle.Intersect: componentwise max of the minima and min of the
maxima; the zero rectangle if the result is empty. -/
def Rect.inter (r s : Rect) : Rect :=
  let t : Rect := ⟨max r.minX s.minX, max r.minY s.minY,
                   min r.maxX s.maxX, min r.maxY s.maxY⟩
  if t.minX ≥ t.maxX ∨ t.minY ≥ t.maxY then ⟨0, 0, 0, 0⟩ else t

/-- An image, modelled by the dimensions of its pixel buffer. Decoded
images and every image produced by the imaging library have bounds
(0,0)-(w,h). -/
structure Img where
  w : Int
  h : Int
deriving DecidableEq

/-- Bounds of an image: the rectangle (0,0)-(w,h). -/
def Img.bounds (i : Img) : Rect := ⟨0, 0, i.w, i.h⟩

/-- Go truncated division, written (2a+b)/(2b): the exact value of
math.Floor(a/b + 0.5) for a ≥ 0, b > 0, as computed by the imaging
library when it rounds a float ratio half-up. -/
def roundHalfUp (a b : Int) : Int := Int.tdiv (2 * a + b) (2 * b)

/-- imaging.Crop at the dimension level: the crop rectangle is intersected
with the image bounds (then translated, which keeps the dimensions); an
empty intersection gives the empty image. -/
def Img.crop (i : Img) (r : Rect) : Img :=
  let q := r.inter i.bounds
  ⟨q.dx, q.dy⟩

/-- anchorPt of the imaging library: the top-left corner of a w-by-h
window positioned inside bounds b according to the anchor. Go integer
division truncates toward zero. -/
def anchorPt (b : Rect) (w h : Int) (a : Anchor) : Int × Int :=
  match a with
  | .topLeft => (b.minX, b.minY)
  | .top => (b.minX + Int.tdiv (b.dx - w) 2, b.minY)
  | .topRight => (b.maxX - w, b.minY)
  | .left => (b.minX, b.minY + Int.tdiv (b.dy - h) 2)
  | .right => (b.maxX - w, b.minY + Int.tdiv (b.dy - h) 2)
  | .bottomLeft => (b.minX, b.maxY - h)
  | .bottom => (b.minX + Int.tdiv (b.dx - w) 2, b.maxY - h)
  | .bottomRight => (b.maxX - w, b.maxY - h)
  | .center => (b.minX + Int.tdiv (b.dx - w) 2, b.minY + Int.tdiv (b.dy - h) 2)

/-- anchorRect of the imaging library: the anchored w-by-h window, before
intersection with the bounds (Crop performs the intersection). -/
def anchorRect (b : Rect) (w h : Int) (a : Anchor) : Rect :=
  let pt := anchorPt b w h a
  (mkRect 0 0 w h).add pt.1 pt.2

/-- Crop rectangle chosen by imaging.CropAnchor, in source-image
coordinates, after intersection with the source bounds. -/
def cropAnchorRect (i : Img) (w h : Int) (a : Anchor) : Rect :=
  (anchorRect i.bounds w h a).inter i.bounds

/-- imaging.CropAnchor at the dimension level. -/
def cropAnchor (i : Img) (w h : Int) (a : Anchor) : Img :=
  i.crop (anchorRect i.bounds w h a)

/-- imaging.Resize at the dimension level. A negative target dimension or
a 0x0 target or an empty source gives the empty image; a single zero
dimension is recomputed from the aspect ratio, rounded half-up with a
minimum of one pixel. -/
def resize (i : Img) (w h : Int) : Img :=
  if w < 0 ∨ h < 0 then ⟨0, 0⟩
  else if w = 0 ∧ h = 0 then ⟨0, 0⟩
  else if i.w ≤ 0 ∨ i.h ≤ 0 then ⟨0, 0⟩
  else
    let w2 := if w = 0 then max 1 (roundHalfUp (h * i.w) i.h) else w
    let h2 := if h = 0 then max 1 (roundHalfUp (w2 * i.h) i.w) else h
    ⟨w2, h2⟩

/-- imaging.Fit at the dimension level: scales the image down to fit the
maximum dimensions, preserving the aspect ratio; an image already inside
the box is returned unchanged (Fit never scales up). The float aspect
comparison srcW/srcH > maxW/maxH is the exact rational comparison
srcW*maxH > maxW*srcH; the new minor dimension is the truncated exact
ratio. -/
def fit (i : Img) (maxW maxH : Int) : Img :=
  if maxW ≤ 0 ∨ maxH ≤ 0 then ⟨0, 0⟩
  else if i.w ≤ 0 ∨ i.h ≤ 0 then ⟨0, 0⟩
  else if i.w ≤ maxW ∧ i.h ≤ maxH then i
  else if i.w * maxH > maxW * i.h then
    resize i maxW (Int.tdiv (maxW * i.h) i.w)
  else
    resize i (Int.tdiv (maxH * i.w) i.h) maxH

/-- cropAndResize of the imaging library (the Fill path for sources at
least 100 pixels in both dimensions): crop the source to the target aspect
ratio around the anchor, then resize to exactly w-by-h. -/
def cropAndResize (i : Img) (w h : Int) (a : Anchor) : Img :=
  if i.w * h < w * i.h then
    resize (cropAnchor i i.w (max 1 (Int.tdiv (i.w * h) w)) a) w h
  else
    resize (cropAnchor i (max 1 (Int.tdiv (i.h * w) h)) i.h a) w h

/-- resizeAndCrop of the imaging library (the Fill path for small
sources): resize the source so it covers the target box, then crop to
exactly w-by-h around the anchor. -/
def resizeAndCrop (i : Img) (w h : Int) (a : Anchor) : Img :=
  if i.w * h < w * i.h then
    cropAnchor (resize i w 0) w h a
  else
    cropAnchor (resize i 0 h) w h a

/-- imaging.Fill at the dimension level. -/
def fill (i : Img) (w h : Int) (a : Anchor) : Img :=
  if w ≤ 0 ∨ h ≤ 0 then ⟨0, 0⟩
  else if i.w ≤ 0 ∨ i.h ≤ 0 then ⟨0, 0⟩
  else if i.w = w ∧ i.h = h then i
  else if 100 ≤ i.w ∧ 100 ≤ i.h then cropAndResize i w h a
  else resizeAndCrop i w h a

/-- Preset from src/main.go lines 45-52 (mode and anchor are plain
strings in the source). -/
structure Preset where
  name : Str
  width : Int
  height : Int
  quality : Int
  mode : Str
  anchor : Str
deriving DecidableEq

/-- Transform step of processImage (src/main.go lines 117-125): var dst
is the nil pointer, the switch on the mode string assigns it in exactly
three cases, and an unknown mode leaves it nil (modelled as none). -/
def transform (p : Preset) (src : Img) : Option Img :=
  if p.mode = str "crop" then some (cropAnchor src p.width p.height (anchorMap p.anchor))
  else if p.mode = str "fill" then some (fill src p.width p.height (anchorMap p.anchor))
  else if p.mode = str "fit" then some (fit src p.width p.height)
  else none

/-- Helper of goExt: scan the reversed path from the end of the original
string; stop with the extension at the last dot, or with nothing at a path
separator or the start of the string announcer. -/
def extFrom (acc : List Char) : List Char → List Char
  | [] => []
  | c :: cs =>
    if c = '/' then []
    else if c = '.' then c :: acc
    else extFrom (c :: acc) cs

/-- Go filepath.Ext: the suffix of the path starting at the last dot of
the final path element, including the dot; empty if there is none. -/
def goExt (path : Str) : Str := extFrom [] path.reverse

/-- Lowercasing of a path extension (strings.ToLower on ASCII extensions). -/
def lowerStr (s : Str) : Str := s.map Char.toLower

/-- Encoding formats supported by imaging.Save, selected by filename
extension. -/
inductive Fmt where
  | jpeg
  | png
  | gif
  | tiff
  | bmp
deriving DecidableEq

/-- imaging.FormatFromFilename: the format implied by the lowercased
filename extension, or none (ErrUnsupportedFormat) for any other
extension. -/
def formatFromFilename (path : Str) : Option Fmt :=
  let e := lowerStr (goExt path)
  if e = str ".jpg" ∨ e = str ".jpeg" then some .jpeg
  else if e = str ".png" then some .png
  else if e = str ".gif" then some .gif
  else if e = str ".tif" ∨ e = str ".tiff" then some .tiff
  else if e = str ".bmp" then some .bmp
  else none

/-- Quality clamping performed by the Go standard library JPEG encoder:
values below 1 become 1 and values above 100 become 100. -/
def clampQ (q : Int) : Int := if q < 1 then 1 else if q > 100 then 100 else q

/-- What the encoded output depends on. The JPEG encoder takes the image
and the clamped quality; the PNG, GIF, TIFF and BMP encoders take no
quality option at all, so the encoded bytes cannot depend on it. -/
inductive Encoded where
  | jpegData (i : Img) (quality : Int)
  | pngData (i : Img)
  | gifData (i : Img)
  | tiffData (i : Img)
  | bmpData (i : Img)
deriving DecidableEq

/-- imaging.Encode at the model level: dispatch on the format. -/
def encode (f : Fmt) (i : Img) (q : Int) : Encoded :=
  match f with
  | .jpeg => .jpegData i (clampQ q)
  | .png => .pngData i
  | .gif => .gifData i
  | .tiff => .tiffData i
  | .bmp => .bmpData i

/-- Whether an encoded output is JPEG data. -/
def Encoded.isJpeg : Encoded → Bool
  | .jpegData _ _ => true
  | _ => false

/-- Result of imaging.Save. Saving the nil destination image is a runtime
panic: Save resolves the format from the filename, creates the file, and
calls Encode, whose first act on the image (the Opaque or Bounds method of
a nil NRGBA pointer) dereferences the nil pointer. -/
inductive SaveResult where
  | ok (path : Str) (data : Encoded)
  | err
  | panicked
deriving DecidableEq

/-- imaging.Save at the model level. The format is resolved from the
filename first (unknown extension is an error before anything is
written); writeOk models os.Create and the write succeeding; a nil
destination image then panics inside Encode. -/
def save (dst : Option Img) (path : Str) (q : Int) (writeOk : Bool) : SaveResult :=
  match formatFromFilename path with
  | none => .err
  | some f =>
    if writeOk then
      match dst with
      | none => .panicked
      | some i => .ok path (encode f i q)
    else .err

/-- The filesystem as the tasks see it: what imaging.Open decodes at a
path (none is a decode failure) and whether a write at a path succeeds. -/
structure World where
  decode : Str → Option Img
  writeOk : Str → Bool

/-- Input path opened by processImage (src/main.go line 112). -/
def inPath (indir file : Str) : Str := indir ++ str "/" ++ file

/-- Output path written by processImage (src/main.go line 127). -/
def outPath (outdir : Str) (p : Preset) (file : Str) : Str :=
  outdir ++ str "/" ++ p.name ++ str "_" ++ file

/-- Outcome of one (preset, file) unit of work. fatalOpen and fatalSave
are the two log.Fatalf calls of processImage (immediate process
termination); panicked is a runtime panic escaping the goroutine (also
process termination). -/
inductive TaskOutcome where
  | completed (path : Str) (data : Encoded)
  | fatalOpen
  | fatalSave
  | panicked
deriving DecidableEq

/-- Whether a task outcome is a normal completion. -/
def TaskOutcome.isCompleted : TaskOutcome → Bool
  | .completed _ _ => true
  | _ => false

/-- processImage (src/main.go lines 109-131): open indir/file (log.Fatalf
on error), transform according to the preset mode, save to
outdir/<name>_<file> with the JPEG quality option (log.Fatalf on error). -/
def processImage (w : World) (p : Preset) (indir outdir file : Str) : TaskOutcome :=
  match w.decode (inPath indir file) with
  | none => .fatalOpen
  | some src =>
    match save (transform p src) (outPath outdir p file) p.quality
        (w.writeOk (outPath outdir p file)) with
    | .ok pa d => .completed pa d
    | .err => .fatalSave
    | .panicked => .panicked

/-- Task launch order of main (src/main.go lines 155-163): the outer loop
ranges over presets, the inner loop over files, and one goroutine is
launched per iteration; so the launched units are the preset-major,
file-minor cross product. -/
def dispatch (presets : List Preset) (files : List Str) : List (Preset × Str) :=
  presets.flatMap (fun p => files.map (fun f => (p, f)))

/-- Execution of the launched units with scheduling serialised in launch
order. The boolean is true when the process was terminated by a fatal
error or panic; in that case the remaining units never run. When it is
false, wg.Wait has returned and the list holds the outcome of every
launched unit. -/
def runDispatch (w : World) (indir outdir : Str) : List (Preset × Str) → List TaskOutcome × Bool
  | [] => ([], false)
  | t :: rest =>
    let o := processImage w t.1 indir outdir t.2
    if o.isCompleted then
      let r := runDispatch w indir outdir rest
      (o :: r.1, r.2)
    else ([o], true)

/-- Dir struct of the configuration (src/main.go lines 40-43). -/
structure Dir where
  inDir : Str
  outDir : Str
deriving DecidableEq

/-- Conf struct of the configuration (src/main.go lines 35-38). -/
structure Conf where
  dirs : Dir
  presets : List Preset
deriving DecidableEq

/-- getConf (src/main.go lines 54-67): read the config file (error if it
cannot be read), unmarshal it (error if the YAML is invalid), and return
the parsed Conf unchanged; no field of any preset is inspected. The file
contents and the YAML unmarshaller are external collaborators, passed as
parameters. -/
def getConf (fileContents : Option Str) (unmarshal : Str → Option Conf) : Option Conf :=
  match fileContents with
  | none => none
  | some y => unmarshal y

/-- Modelled from the spec: the preset validity predicate the spec
requires the configuration loader to enforce (positive dimensions,
quality within range 1-100, known mode, known anchor). This definition
follows the words of the spec, for comparison with getConf. -/
def specPresetValid (p : Preset) : Bool :=
  decide (0 < p.width) && decide (0 < p.height) &&
  decide (1 ≤ p.quality) && decide (p.quality ≤ 100) &&
  decide (p.mode ∈ [str "crop", str "fill", str "fit"]) &&
  decide (p.anchor ∈ anchorKeys)

/-! Helper lemmas shared by the claim theorems. -/

/-- Truncated division of two natural-number casts is the cast of natural
division. -/
theorem tdiv_coe (m n : Nat) : Int.tdiv (m : Int) (n : Int) = ((m / n : Nat) : Int) := rfl

/-- roundHalfUp on natural-number casts is the cast of the natural
computation. -/
theorem roundHalfUp_coe (a b : Nat) :
    roundHalfUp (a : Int) (b : Int) = (((2 * a + b) / (2 * b) : Nat) : Int) := by
  rw [roundHalfUp, show (2 * (a : Int) + b) = ((2 * a + b : Nat) : Int) by push_cast; ring,
    show (2 * (b : Int)) = ((2 * b : Nat) : Int) by push_cast; ring, tdiv_coe]

/-- Bounds for halving a nonnegative integer with truncated division. -/
theorem tdiv_two_bounds (a : Int) (h : 0 ≤ a) : 0 ≤ a.tdiv 2 ∧ a.tdiv 2 ≤ a := by
  obtain ⟨n, rfl⟩ := Int.eq_ofNat_of_zero_le h
  rw [show (2 : Int) = ((2 : Nat) : Int) by rfl, tdiv_coe]
  exact ⟨Int.ofNat_nonneg _, Int.ofNat_le.mpr (Nat.div_le_self n 2)⟩

/-- The extension scan stops inside a fragment that contains a dot or a
path separator, so anything appended after that fragment (closer to the
start of the original string) is never examined. -/
theorem extFrom_append (l : List Char) (h : '.' ∈ l ∨ '/' ∈ l) :
    ∀ acc ys, extFrom acc (l ++ ys) = extFrom acc l := by
  induction l with
  | nil => simp at h
  | cons c cs ih =>
    intro acc ys
    by_cases hc : c = '/'
    · simp [extFrom, hc]
    · by_cases hd : c = '.'
      · simp [extFrom, hd]
      · have h2 : '.' ∈ cs ∨ '/' ∈ cs := by
          rcases h with h | h <;> rcases List.mem_cons.mp h with h1 | h1 <;>
            first | (exact absurd h1.symm (by simp [hc, hd])) | simp [h1]
        simp only [List.cons_append, extFrom, if_neg hc, if_neg hd]
        exact ih h2 _ _

/-- A filename that contains a dot keeps its extension when any string is
prepended to it. -/
theorem goExt_append (xs f : Str) (h : '.' ∈ f) : goExt (xs ++ f) = goExt f := by
  unfold goExt
  rw [List.reverse_append]
  exact extFrom_append f.reverse (Or.inl (List.mem_reverse.mpr h)) [] xs.reverse

/-! Claim C5: the anchor table. -/

/-- Claim C5 counterexample: the table does not map the spelled-out
symbolic names. Looking up the hyphenated name top-left (and bottom-right,
and even the lowercase bottomright) yields the zero-value anchor Center,
not the corresponding reference point, because the keys actually present
are the unhyphenated ones and the bottom-right key is spelled bottomRight
with a capital R. -/
theorem anchor_names_counterexample :
    anchorMap (str "top-left") = Anchor.center ∧
    anchorMap (str "bottom-right") = Anchor.center ∧
    anchorMap (str "bottomright") = Anchor.center ∧
    anchorMap (str "bottomRight") = Anchor.bottomRight ∧
    Anchor.center ≠ Anchor.topLeft ∧
    Anchor.center ≠ Anchor.bottomRight := by decide

/-- Claim C5 (amended): the anchor table maps exactly the nine keys
center, topleft, top, topright, left, right, bottomleft, bottom and
bottomRight (the last one in mixed case) to the nine reference-point
anchors, and lookup of any string outside this key set yields the zero
value Anchor, which is Center. -/
theorem anchor_table_keys :
    (anchorMap (str "center") = Anchor.center ∧
     anchorMap (str "topleft") = Anchor.topLeft ∧
     anchorMap (str "top") = Anchor.top ∧
     anchorMap (str "topright") = Anchor.topRight ∧
     anchorMap (str "left") = Anchor.left ∧
     anchorMap (str "right") = Anchor.right ∧
     anchorMap (str "bottomleft") = Anchor.bottomLeft ∧
     anchorMap (str "bottom") = Anchor.bottom ∧
     anchorMap (str "bottomRight") = Anchor.bottomRight) ∧
    (∀ key : Str, key ∉ anchorKeys → anchorMap key = Anchor.center) := by
  refine ⟨by decide, ?_⟩
  intro key hk
  unfold anchorMap
  split_ifs with h1 h2 h3 h4 h5 h6 h7 h8 h9 <;> simp_all [anchorKeys]

/-- Witness for the C5 theorem: lookup of a concrete unknown name gives
Center. -/
theorem anchor_table_keys_witness :
    (str "unknown") ∉ anchorKeys ∧ anchorMap (str "unknown") = Anchor.center :=
  ⟨by decide, anchor_table_keys.2 (str "unknown") (by decide)⟩

/-! Claim C4: unknown transform mode. -/

/-- Claim C4 counterexample: with an unknown mode the destination stays
nil and no output is produced, but the task does not complete silently:
saving the nil image panics (nil-pointer dereference inside the encoder),
so the outcome at this concrete input is a process-terminating panic, not
a normal completion. -/
theorem unknown_mode_counterexample :
    transform ⟨str "x", 100, 100, 80, str "grayscale", str "center"⟩ ⟨400, 200⟩ = none ∧
    processImage ⟨fun _ => some ⟨400, 200⟩, fun _ => true⟩
      ⟨str "x", 100, 100, 80, str "grayscale", str "center"⟩
      (str "in") (str "out") (str "a.jpg") = TaskOutcome.panicked ∧
    TaskOutcome.panicked.isCompleted = false := by decide

/-- Claim C4 (amended): for every preset whose mode is none of crop, fill
and fit, the transform produces no output (the destination remains the
nil zero image), but this is not silently accepted: when the source
decodes and the filesystem would accept the write, saving the nil
destination panics and the task terminates the process instead of
completing. -/
theorem unknown_mode_nil_destination_panics
    (w : World) (p : Preset) (indir outdir file : Str) (src : Img)
    (hc : p.mode ≠ str "crop") (hf : p.mode ≠ str "fill") (hfit : p.mode ≠ str "fit") :
    transform p src = none ∧
    (w.decode (inPath indir file) = some src →
     w.writeOk (outPath outdir p file) = true →
     (formatFromFilename (outPath outdir p file)).isSome →
     processImage w p indir outdir file = TaskOutcome.panicked) := by
  have htr : transform p src = none := by simp [transform, hc, hf, hfit]
  refine ⟨htr, ?_⟩
  intro hdec hwr hfmt
  obtain ⟨f, hf2⟩ := Option.isSome_iff_exists.mp hfmt
  simp [processImage, hdec, save, hf2, hwr, htr]

/-- Witness for the C4 theorem at a concrete unknown-mode preset. -/
theorem unknown_mode_nil_destination_panics_witness :
    (str "grayscale" ≠ str "crop") ∧
    processImage ⟨fun _ => some ⟨400, 200⟩, fun _ => true⟩
      ⟨str "x", 100, 100, 80, str "grayscale", str "center"⟩
      (str "in") (str "out") (str "a.jpg") = TaskOutcome.panicked :=
  ⟨by decide,
   (unknown_mode_nil_destination_panics ⟨fun _ => some ⟨400, 200⟩, fun _ => true⟩
      ⟨str "x", 100, 100, 80, str "grayscale", str "center"⟩
      (str "in") (str "out") (str "a.jpg") ⟨400, 200⟩
      (by decide) (by decide) (by decide)).2 (by decide) (by decide) (by decide)⟩

/-! Claim C8: the Encoder/Writer. -/

/-- Claim C8 counterexample: saving to a path with a png extension does
not encode a JPEG-compatible format at the given quality: the output is
PNG data, selected from the path extension, and it is not JPEG. -/
theorem encoder_format_counterexample :
    save (some ⟨100, 50⟩) (str "out/thumb_a.png") 80 true =
      SaveResult.ok (str "out/thumb_a.png") (Encoded.pngData ⟨100, 50⟩) ∧
    (Encoded.pngData ⟨100, 50⟩).isJpeg = false := by decide

/-- Claim C8 (amended): the Encoder/Writer selects the encoding format
from the output path extension. A path whose extension resolves to JPEG
is encoded as JPEG at the given quality (the encoder clamps it into
1-100, and a quality already in 1-100 is used exactly); a path whose
extension resolves to PNG is encoded as PNG, with no quality parameter;
an unsupported extension makes the save fail. -/
theorem encoder_format_by_extension (i : Img) (path : Str) (q : Int) :
    (formatFromFilename path = some Fmt.jpeg →
      save (some i) path q true = SaveResult.ok path (Encoded.jpegData i (clampQ q))) ∧
    (formatFromFilename path = some Fmt.png →
      save (some i) path q true = SaveResult.ok path (Encoded.pngData i)) ∧
    (formatFromFilename path = none → save (some i) path q true = SaveResult.err) ∧
    (1 ≤ clampQ q ∧ clampQ q ≤ 100) ∧
    (1 ≤ q → q ≤ 100 → clampQ q = q) := by
  refine ⟨fun h => by simp [save, h, encode], fun h => by simp [save, h, encode],
    fun h => by simp [save, h], ?_, fun h1 h2 => ?_⟩
  · unfold clampQ
    split_ifs <;> omega
  · unfold clampQ
    split_ifs <;> omega

/-- Witness for the C8 theorem at a concrete jpeg path and quality. -/
theorem encoder_format_by_extension_witness :
    formatFromFilename (str "out/x_a.jpg") = some Fmt.jpeg ∧
    save (some ⟨100, 50⟩) (str "out/x_a.jpg") 80 true =
      SaveResult.ok (str "out/x_a.jpg") (Encoded.jpegData ⟨100, 50⟩ (clampQ 80)) :=
  ⟨by decide, (encoder_format_by_extension ⟨100, 50⟩ (str "out/x_a.jpg") 80).1 (by decide)⟩

/-! Claim C10: the configuration loader. -/

/-- Claim C10 counterexample: the loader hands an invalid preset straight
to the core. A preset with negative width, zero height, out-of-range
quality, unknown mode and unknown anchor comes out of getConf unchanged
and appears in the dispatched task list. -/
theorem loader_no_validation_counterexample :
    getConf (some (str "presets:"))
      (fun _ => some ⟨⟨str "in", str "out"⟩,
        [⟨str "bad", -5, 0, 500, str "sepia", str "top-left"⟩]⟩) =
      some ⟨⟨str "in", str "out"⟩,
        [⟨str "bad", -5, 0, 500, str "sepia", str "top-left"⟩]⟩ ∧
    specPresetValid ⟨str "bad", -5, 0, 500, str "sepia", str "top-left"⟩ = false ∧
    (⟨str "bad", -5, 0, 500, str "sepia", str "top-left"⟩, str "a.jpg") ∈
      dispatch [⟨str "bad", -5, 0, 500, str "sepia", str "top-left"⟩] [str "a.jpg"] := by
  decide

/-- Claim C10 (amended): the configuration loader performs no validation
of preset fields. Whatever Conf the YAML unmarshaller produces is
returned unchanged — getConf never inspects width, height, quality, mode
or anchor — and every parsed preset, valid or not, reaches dispatch:
it appears paired with every discovered file in the launched task list. -/
theorem loader_passes_presets_unvalidated
    (y : Str) (u : Str → Option Conf) (c : Conf) (f : Str) (files : List Str) :
    getConf (some y) u = u y ∧
    getConf none u = none ∧
    (u y = some c → getConf (some y) u = some c) ∧
    (∀ p ∈ c.presets, f ∈ files → (p, f) ∈ dispatch c.presets files) := by
  refine ⟨rfl, rfl, fun h => h, fun p hp hf => ?_⟩
  simp only [dispatch, List.mem_flatMap]
  exact ⟨p, hp, List.mem_map.mpr ⟨f, hf, rfl⟩⟩

/-- Witness for the C10 theorem: a concrete invalid preset reaches the
task list. -/
theorem loader_passes_presets_unvalidated_witness :
    (⟨str "bad", -5, 0, 500, str "sepia", str "x"⟩ : Preset) ∈
      (⟨⟨str "in", str "out"⟩, [⟨str "bad", -5, 0, 500, str "sepia", str "x"⟩]⟩ : Conf).presets ∧
    (str "a.jpg") ∈ [str "a.jpg"] ∧
    ((⟨str "bad", -5, 0, 500, str "sepia", str "x"⟩ : Preset), str "a.jpg") ∈
      dispatch (⟨⟨str "in", str "out"⟩,
        [⟨str "bad", -5, 0, 500, str "sepia", str "x"⟩]⟩ : Conf).presets [str "a.jpg"] :=
  ⟨by decide, by decide,
   (loader_passes_presets_unvalidated (str "y") (fun _ => none)
      ⟨⟨str "in", str "out"⟩, [⟨str "bad", -5, 0, 500, str "sepia", str "x"⟩]⟩
      (str "a.jpg") [str "a.jpg"]).2.2.2 _ (by decide) (by decide)⟩

/-- A successful save writes at exactly the path it was given. -/
theorem save_ok_path (dst : Option Img) (path : Str) (q : Int) (wk : Bool)
    (pa : Str) (d : Encoded) (h : save dst path q wk = SaveResult.ok pa d) : pa = path := by
  unfold save at h
  cases hf : formatFromFilename path <;> rw [hf] at h
  · simp at h
  · cases wk with
    | false => simp at h
    | true =>
      cases dst with
      | none => simp at h
      | some i =>
        simp only [if_true, SaveResult.ok.injEq] at h
        exact h.1.symm

/-- A completed task wrote at exactly outPath. -/
theorem processImage_completed_path (w : World) (p : Preset) (indir outdir f pa : Str)
    (d : Encoded) (h : processImage w p indir outdir f = TaskOutcome.completed pa d) :
    pa = outPath outdir p f := by
  cases hd : w.decode (inPath indir f) with
  | none => simp [processImage, hd] at h
  | some src =>
    simp only [processImage, hd] at h
    cases hs : save (transform p src) (outPath outdir p f) p.quality
        (w.writeOk (outPath outdir p f)) with
    | ok pa2 d2 =>
      rw [hs] at h
      simp only [TaskOutcome.completed.injEq] at h
      exact h.1 ▸ save_ok_path _ _ _ _ _ _ hs
    | err => rw [hs] at h; simp at h
    | panicked => rw [hs] at h; simp at h

/-- Number of launched units: the size of the cross product. -/
theorem dispatch_length (P : List Preset) (F : List Str) :
    (dispatch P F).length = P.length * F.length := by
  induction P with
  | nil => simp [dispatch]
  | cons p ps ih =>
    simp only [dispatch, List.flatMap_cons, List.length_append, List.length_map,
      List.length_cons] at *
    rw [ih, Nat.succ_mul, Nat.add_comm]

/-- Launch order: the unit at position i * F.length + j is the pair of
the i-th preset with the j-th file (preset-major, file-minor). -/
theorem dispatch_getElem (P : List Preset) (F : List Str) (i j : Nat)
    (hi : i < P.length) (hj : j < F.length)
    (hk : i * F.length + j < (dispatch P F).length) :
    (dispatch P F).get ⟨i * F.length + j, hk⟩ = (P.get ⟨i, hi⟩, F.get ⟨j, hj⟩) := by
  induction P generalizing i with
  | nil => simp at hi
  | cons p ps ih =>
    cases i with
    | zero =>
      simp only [dispatch, List.flatMap_cons, List.get_eq_getElem, Nat.zero_mul, Nat.zero_add]
      rw [List.getElem_append_left (by simpa using hj)]
      simp
    | succ i2 =>
      have hi2 : i2 < ps.length := by simpa using hi
      have hoff : i2.succ * F.length + j = F.length + (i2 * F.length + j) := by
        rw [Nat.succ_mul]; omega
      have hk2 : i2 * F.length + j < (dispatch ps F).length := by
        rw [dispatch_length]
        calc i2 * F.length + j < i2 * F.length + F.length := by omega
        _ = (i2 + 1) * F.length := by rw [Nat.succ_mul]
        _ ≤ ps.length * F.length := Nat.mul_le_mul_right _ hi2
      simp only [dispatch, List.flatMap_cons, List.get_eq_getElem]
      have hlen : (List.map (fun f => (p, f)) F).length ≤ (i2 + 1) * F.length + j := by
        simp only [List.length_map]
        calc F.length ≤ (i2 + 1) * F.length := Nat.le_mul_of_pos_left _ (Nat.succ_pos i2)
        _ ≤ (i2 + 1) * F.length + j := Nat.le_add_right _ _
      rw [List.getElem_append_right hlen]
      have hidx : (i2 + 1) * F.length + j - (List.map (fun f => (p, f)) F).length =
          i2 * F.length + j := by
        simp only [List.length_map, Nat.succ_mul]
        omega
      simp only [hidx]
      have := ih i2 hi2 hk2
      simp only [dispatch, List.get_eq_getElem] at this
      simpa using this

/-- When every launched unit completes, the dispatcher collects exactly
one outcome per unit and returns without terminating the process. -/
theorem runDispatch_all (w : World) (indir outdir : Str) (ts : List (Preset × Str))
    (h : ∀ t ∈ ts, (processImage w t.1 indir outdir t.2).isCompleted = true) :
    runDispatch w indir outdir ts =
      (ts.map fun t => processImage w t.1 indir outdir t.2, false) := by
  induction ts with
  | nil => rfl
  | cons t ts ih =>
    have h1 := h t (List.mem_cons_self t ts)
    have h2 : ∀ t2 ∈ ts, (processImage w t2.1 indir outdir t2.2).isCompleted = true :=
      fun t2 ht2 => h t2 (List.mem_cons_of_mem t ht2)
    simp [runDispatch, h1, ih h2]

/-- When the units before t complete and t fails, the run stops at t: the
outcomes are those of the units before t plus the failing one, the
process is terminated, and the units after t never run. -/
theorem runDispatch_fatal (w : World) (indir outdir : Str)
    (pre : List (Preset × Str)) (t : Preset × Str) (post : List (Preset × Str))
    (hpre : ∀ t2 ∈ pre, (processImage w t2.1 indir outdir t2.2).isCompleted = true)
    (ht : (processImage w t.1 indir outdir t.2).isCompleted = false) :
    runDispatch w indir outdir (pre ++ t :: post) =
      (pre.map (fun t2 => processImage w t2.1 indir outdir t2.2) ++
        [processImage w t.1 indir outdir t.2], true) := by
  induction pre with
  | nil => simp [runDispatch, ht]
  | cons a pre ih =>
    have h1 := hpre a (List.mem_cons_self a pre)
    have h2 : ∀ t2 ∈ pre, (processImage w t2.1 indir outdir t2.2).isCompleted = true :=
      fun t2 ht2 => hpre t2 (List.mem_cons_of_mem a ht2)
    simp [runDispatch, h1, ih h2]

/-! Claim C1: the Task Dispatcher. -/

/-- Claim C1: dispatch launches exactly one unit of work per (preset,
file) pair, iterating presets in the outer loop and files in the inner
loop, so the unit at position i * |F| + j handles (preset i, file j); a
unit whose source fails to open is fatal at inPath = indir/file, a
completed unit wrote at outPath = outdir/<name>_<file>, and when every
launched unit completes the dispatcher returns, not having terminated the
process, with exactly |P| * |F| collected outcomes. -/
theorem dispatch_cross_product_and_join
    (P : List Preset) (F : List Str) (indir outdir : Str) (w : World) :
    (dispatch P F).length = P.length * F.length ∧
    (∀ i j (hi : i < P.length) (hj : j < F.length)
        (hk : i * F.length + j < (dispatch P F).length),
        (dispatch P F).get ⟨i * F.length + j, hk⟩ = (P.get ⟨i, hi⟩, F.get ⟨j, hj⟩)) ∧
    (∀ p f, w.decode (inPath indir f) = none →
        processImage w p indir outdir f = TaskOutcome.fatalOpen) ∧
    (∀ p f pa d, processImage w p indir outdir f = TaskOutcome.completed pa d →
        pa = outPath outdir p f) ∧
    ((∀ t ∈ dispatch P F, (processImage w t.1 indir outdir t.2).isCompleted = true) →
        runDispatch w indir outdir (dispatch P F) =
          ((dispatch P F).map fun t => processImage w t.1 indir outdir t.2, false) ∧
        ((dispatch P F).map fun t => processImage w t.1 indir outdir t.2).length =
          P.length * F.length) := by
  refine ⟨dispatch_length P F, dispatch_getElem P F, ?_, ?_, ?_⟩
  · intro p f hd
    simp [processImage, hd]
  · intro p f pa d h
    exact processImage_completed_path w p indir outdir f pa d h
  · intro hall
    exact ⟨runDispatch_all w indir outdir _ hall, by rw [List.length_map, dispatch_length]⟩

/-- Witness for the C1 theorem: two presets and three files give six
units in preset-major file-minor order, all complete, and the dispatcher
returns all six outcomes. -/
theorem dispatch_cross_product_and_join_witness :
    (1 < [(⟨str "a", 100, 100, 80, str "fit", str "center"⟩ : Preset),
          ⟨str "b", 50, 50, 90, str "fit", str "center"⟩].length) ∧
    (dispatch [⟨str "a", 100, 100, 80, str "fit", str "center"⟩,
               ⟨str "b", 50, 50, 90, str "fit", str "center"⟩]
              [str "f1.jpg", str "f2.jpg", str "f3.png"]).length = 2 * 3 :=
  ⟨by decide,
   (dispatch_cross_product_and_join
      [⟨str "a", 100, 100, 80, str "fit", str "center"⟩,
       ⟨str "b", 50, 50, 90, str "fit", str "center"⟩]
      [str "f1.jpg", str "f2.jpg", str "f3.png"]
      (str "in") (str "out") ⟨fun _ => some ⟨400, 200⟩, fun _ => true⟩).1⟩

/-! Claim C6: per-task errors are fatal to the whole process. -/

/-- Claim C6: a decode failure or a write failure in any unit is fatal:
the unit outcome is a log.Fatalf termination, and the run stops at the
first non-completing unit — the units launched after it never complete
and the process is terminated. -/
theorem first_task_error_terminates_process
    (w : World) (indir outdir f : Str) (p : Preset) (src : Img)
    (pre : List (Preset × Str)) (t : Preset × Str) (post : List (Preset × Str)) :
    (w.decode (inPath indir f) = none →
      processImage w p indir outdir f = TaskOutcome.fatalOpen) ∧
    (w.decode (inPath indir f) = some src →
      w.writeOk (outPath outdir p f) = false →
      processImage w p indir outdir f = TaskOutcome.fatalSave) ∧
    TaskOutcome.fatalOpen.isCompleted = false ∧
    TaskOutcome.fatalSave.isCompleted = false ∧
    ((∀ t2 ∈ pre, (processImage w t2.1 indir outdir t2.2).isCompleted = true) →
     (processImage w t.1 indir outdir t.2).isCompleted = false →
     runDispatch w indir outdir (pre ++ t :: post) =
       (pre.map (fun t2 => processImage w t2.1 indir outdir t2.2) ++
         [processImage w t.1 indir outdir t.2], true)) := by
  refine ⟨fun hd => by simp [processImage, hd], fun hd hw => ?_, rfl, rfl,
    runDispatch_fatal w indir outdir pre t post⟩
  unfold processImage save
  rw [hd, hw]
  cases formatFromFilename (outPath outdir p f) <;> simp

/-- Witness for the C6 theorem: a concrete run where the second unit
fails to decode; the first outcome is collected, the failing one
terminates the process, and the third unit never runs. -/
theorem first_task_error_terminates_process_witness :
    ((⟨fun pa => if pa = inPath (str "in") (str "b.png") then none else some ⟨400, 200⟩,
        fun _ => true⟩ : World).decode (inPath (str "in") (str "b.png")) = none) ∧
    processImage ⟨fun pa => if pa = inPath (str "in") (str "b.png") then none
        else some ⟨400, 200⟩, fun _ => true⟩
      ⟨str "x", 100, 100, 80, str "fit", str "center"⟩
      (str "in") (str "out") (str "b.png") = TaskOutcome.fatalOpen :=
  ⟨by decide,
   (first_task_error_terminates_process
      ⟨fun pa => if pa = inPath (str "in") (str "b.png") then none else some ⟨400, 200⟩,
        fun _ => true⟩
      (str "in") (str "out") (str "b.png")
      ⟨str "x", 100, 100, 80, str "fit", str "center"⟩ ⟨400, 200⟩ []
      (⟨str "x", 100, 100, 80, str "fit", str "center"⟩, str "b.png") []).1 (by decide)⟩

/-! Claim C7: deterministic output paths. -/

/-- Claim C7: the output path of every unit is deterministically
outdir/<preset.name>_<file> — a completed task wrote at exactly that
path — and a concrete run with two presets and three files yields
exactly six output paths, pairwise distinct, named <name>_<file>. -/
theorem output_path_deterministic
    (w : World) (p : Preset) (indir outdir f pa : Str) (d : Encoded) :
    outPath outdir p f = outdir ++ str "/" ++ p.name ++ str "_" ++ f ∧
    (processImage w p indir outdir f = TaskOutcome.completed pa d →
      pa = outPath outdir p f) ∧
    ((dispatch [⟨str "a", 100, 100, 80, str "fit", str "center"⟩,
                ⟨str "b", 50, 50, 90, str "crop", str "topleft"⟩]
               [str "f1.jpg", str "f2.jpg", str "f3.png"]).map
        (fun t => outPath (str "out") t.1 t.2) =
      [str "out/a_f1.jpg", str "out/a_f2.jpg", str "out/a_f3.png",
       str "out/b_f1.jpg", str "out/b_f2.jpg", str "out/b_f3.png"] ∧
     ([str "out/a_f1.jpg", str "out/a_f2.jpg", str "out/a_f3.png",
       str "out/b_f1.jpg", str "out/b_f2.jpg", str "out/b_f3.png"] : List Str).Nodup ∧
     ((dispatch [⟨str "a", 100, 100, 80, str "fit", str "center"⟩,
                 ⟨str "b", 50, 50, 90, str "crop", str "topleft"⟩]
                [str "f1.jpg", str "f2.jpg", str "f3.png"]).map
        (fun t => outPath (str "out") t.1 t.2)).length = 6) :=
  ⟨rfl, processImage_completed_path w p indir outdir f pa d, by decide, by decide, by decide⟩

/-- Witness for the C7 theorem: a concrete completed task wrote at the
deterministic path. -/
theorem output_path_deterministic_witness :
    processImage ⟨fun _ => some ⟨400, 200⟩, fun _ => true⟩
      ⟨str "x", 100, 100, 80, str "fit", str "center"⟩
      (str "in") (str "out") (str "a.jpg") =
      TaskOutcome.completed (str "out/x_a.jpg") (Encoded.jpegData ⟨100, 50⟩ 80) ∧
    (str "out/x_a.jpg" : Str) =
      outPath (str "out") ⟨str "x", 100, 100, 80, str "fit", str "center"⟩ (str "a.jpg") :=
  ⟨by decide,
   (output_path_deterministic ⟨fun _ => some ⟨400, 200⟩, fun _ => true⟩
      ⟨str "x", 100, 100, 80, str "fit", str "center"⟩
      (str "in") (str "out") (str "a.jpg") (str "out/x_a.jpg")
      (Encoded.jpegData ⟨100, 50⟩ 80)).2.1 (by decide)⟩

/-- Format selection depends on the path only through its extension. -/
theorem formatFromFilename_congr (p1 p2 : Str) (h : goExt p1 = goExt p2) :
    formatFromFilename p1 = formatFromFilename p2 := by
  simp [formatFromFilename, h]

/-! Claim C9: extension preservation and per-extension encoding. -/

/-- Claim C9: the output name <name>_<file> preserves the extension of
the source file (the last dot of the path still comes from the file
part), the save-time format is selected from that extension, a png
source yields PNG output on which the JPEG quality option has no effect,
and JPEG output, encoded at the preset quality, arises exactly for the
jpg and jpeg extensions. -/
theorem extension_preserved_format_selected
    (outdir : Str) (p : Preset) (f : Str) (i : Img) (q1 q2 : Int)
    (hdot : '.' ∈ f) :
    goExt (outPath outdir p f) = goExt f ∧
    (lowerStr (goExt f) = str ".png" →
      formatFromFilename (outPath outdir p f) = some Fmt.png ∧
      encode Fmt.png i q1 = encode Fmt.png i q2) ∧
    ((lowerStr (goExt f) = str ".jpg" ∨ lowerStr (goExt f) = str ".jpeg") →
      formatFromFilename (outPath outdir p f) = some Fmt.jpeg ∧
      encode Fmt.jpeg i q1 = Encoded.jpegData i (clampQ q1)) ∧
    (formatFromFilename (outPath outdir p f) = some Fmt.jpeg →
      lowerStr (goExt f) = str ".jpg" ∨ lowerStr (goExt f) = str ".jpeg") := by
  have hx : outPath outdir p f = (outdir ++ str "/" ++ p.name ++ str "_") ++ f := by
    simp [outPath, List.append_assoc]
  have hgo : goExt (outPath outdir p f) = goExt f := by
    rw [hx]
    exact goExt_append _ _ hdot
  have hcongr := formatFromFilename_congr _ _ hgo
  refine ⟨hgo, fun h => ⟨?_, rfl⟩, fun h => ⟨?_, rfl⟩, fun h2 => ?_⟩
  · rw [hcongr]
    simp only [formatFromFilename, h]
    decide
  · rw [hcongr]
    rcases h with h | h <;> simp only [formatFromFilename, h] <;> decide
  · rw [hcongr] at h2
    simp only [formatFromFilename] at h2
    split_ifs at h2 with h3 h4 h5 h6 h7 <;> simp_all

/-- Witness for the C9 theorem at a concrete png file name. -/
theorem extension_preserved_format_selected_witness :
    ('.' ∈ str "a.png") ∧
    (lowerStr (goExt (str "a.png")) = str ".png") ∧
    formatFromFilename
      (outPath (str "out") ⟨str "x", 100, 100, 80, str "fit", str "center"⟩ (str "a.png")) =
      some Fmt.png ∧
    encode Fmt.png ⟨100, 50⟩ 80 = encode Fmt.png ⟨100, 50⟩ 5 :=
  ⟨by decide, by decide,
   ((extension_preserved_format_selected (str "out")
      ⟨str "x", 100, 100, 80, str "fit", str "center"⟩ (str "a.png")
      ⟨100, 50⟩ 80 5 (by decide)).2.1 (by decide)).1,
   ((extension_preserved_format_selected (str "out")
      ⟨str "x", 100, 100, 80, str "fit", str "center"⟩ (str "a.png")
      ⟨100, 50⟩ 80 5 (by decide)).2.1 (by decide)).2⟩

/-- Resizing an a-by-b image to a fixed positive width x and the
truncated minor dimension (x*b)/a: the result has width x and height
max 1 ((x*b)/a); the one-pixel floor comes from the Resize branch that
recomputes a zero dimension. -/
theorem resize_fit_minor (a b x : Nat) (ha : 0 < a) (hb : 0 < b) (hx : 0 < x) :
    resize ⟨(a : Int), (b : Int)⟩ (x : Int) (Int.tdiv ((x : Int) * b) a) =
      ⟨(x : Int), ((max 1 ((x * b) / a) : Nat) : Int)⟩ := by
  have ht : Int.tdiv ((x : Int) * b) a = (((x * b) / a : Nat) : Int) := by
    rw [show ((x : Int) * b) = ((x * b : Nat) : Int) by push_cast; ring, tdiv_coe]
  have hru : roundHalfUp ((x : Int) * b) a = (((2 * (x * b) + a) / (2 * a) : Nat) : Int) := by
    rw [show ((x : Int) * b) = ((x * b : Nat) : Int) by push_cast; ring]
    exact roundHalfUp_coe _ _
  have hone : a ≤ x * b → 1 ≤ x * b / a := fun hge => (Nat.one_le_div_iff ha).mpr hge
  have hr2 : x * b < a → (2 * (x * b) + a) / (2 * a) < 2 := fun hlt =>
    (Nat.div_lt_iff_lt_mul (by omega : 0 < 2 * a)).mpr (by omega)
  rw [ht]
  simp only [resize]
  generalize htd : x * b / a = t at hone ⊢
  have h1 : ¬((x : Int) < 0 ∨ ((t : Nat) : Int) < 0) := by
    intro hcon
    rcases hcon with hc | hc <;> omega
  rw [if_neg h1]
  have h2 : ¬((x : Int) = 0 ∧ ((t : Nat) : Int) = 0) := by
    intro hcon
    omega
  rw [if_neg h2]
  have h3 : ¬((a : Int) ≤ 0 ∨ (b : Int) ≤ 0) := by
    intro hcon
    rcases hcon with hc | hc <;> omega
  rw [if_neg h3]
  have hx0 : ¬((x : Int) = 0) := by omega
  simp only [if_neg hx0]
  rw [hru]
  generalize hrd : (2 * (x * b) + a) / (2 * a) = r at hr2 ⊢
  by_cases ht0 : t = 0
  · have htz : ((t : Nat) : Int) = 0 := by omega
    rw [if_pos htz]
    have hxa : x * b < a := by
      by_contra hge
      push_neg at hge
      have h1le := hone hge
      omega
    have hrlt := hr2 hxa
    rw [ht0]
    simp only [Img.mk.injEq]
    exact ⟨by trivial, by omega⟩
  · have ht0i : ¬(((t : Nat) : Int) = 0) := by omega
    rw [if_neg ht0i]
    have hmax : max 1 t = t := by omega
    rw [hmax]

/-- Mirror of resize_fit_minor: fixed positive height y, truncated minor
width (y*a)/b. -/
theorem resize_fit_major (a b y : Nat) (ha : 0 < a) (hb : 0 < b) (hy : 0 < y) :
    resize ⟨(a : Int), (b : Int)⟩ (Int.tdiv ((y : Int) * a) b) (y : Int) =
      ⟨((max 1 ((y * a) / b) : Nat) : Int), (y : Int)⟩ := by
  have ht : Int.tdiv ((y : Int) * a) b = (((y * a) / b : Nat) : Int) := by
    rw [show ((y : Int) * a) = ((y * a : Nat) : Int) by push_cast; ring, tdiv_coe]
  have hru : roundHalfUp ((y : Int) * a) b = (((2 * (y * a) + b) / (2 * b) : Nat) : Int) := by
    rw [show ((y : Int) * a) = ((y * a : Nat) : Int) by push_cast; ring]
    exact roundHalfUp_coe _ _
  have hone : b ≤ y * a → 1 ≤ y * a / b := fun hge => (Nat.one_le_div_iff hb).mpr hge
  have hr2 : y * a < b → (2 * (y * a) + b) / (2 * b) < 2 := fun hlt =>
    (Nat.div_lt_iff_lt_mul (by omega : 0 < 2 * b)).mpr (by omega)
  rw [ht]
  simp only [resize]
  generalize htd : y * a / b = t at hone ⊢
  have h1 : ¬(((t : Nat) : Int) < 0 ∨ (y : Int) < 0) := by
    intro hcon
    rcases hcon with hc | hc <;> omega
  rw [if_neg h1]
  have h2 : ¬(((t : Nat) : Int) = 0 ∧ (y : Int) = 0) := by
    intro hcon
    omega
  rw [if_neg h2]
  have h3 : ¬((a : Int) ≤ 0 ∨ (b : Int) ≤ 0) := by
    intro hcon
    rcases hcon with hc | hc <;> omega
  rw [if_neg h3]
  have hy0 : ¬((y : Int) = 0) := by omega
  simp only [if_neg hy0]
  rw [hru]
  generalize hrd : (2 * (y * a) + b) / (2 * b) = r at hr2 ⊢
  by_cases ht0 : t = 0
  · have htz : ((t : Nat) : Int) = 0 := by omega
    rw [if_pos htz]
    have hya : y * a < b := by
      by_contra hge
      push_neg at hge
      have h1le := hone hge
      omega
    have hrlt := hr2 hya
    rw [ht0]
    simp only [Img.mk.injEq]
    exact ⟨by omega, by trivial⟩
  · have ht0i : ¬(((t : Nat) : Int) = 0) := by omega
    rw [if_neg ht0i]
    have hmax : max 1 t = t := by omega
    rw [hmax]

/-- Characterization of imaging.Fit on positive inputs, in terms of
natural-number arithmetic: inside the box it is the identity; otherwise
the binding dimension (chosen by the exact aspect comparison) is set to
the box and the other is the truncated proportional value, at least one
pixel. -/
theorem fit_char (a b x y : Nat) (ha : 0 < a) (hb : 0 < b) (hx : 0 < x) (hy : 0 < y) :
    fit ⟨(a : Int), (b : Int)⟩ (x : Int) (y : Int) =
      if a ≤ x ∧ b ≤ y then ⟨(a : Int), (b : Int)⟩
      else if x * b < a * y then ⟨(x : Int), ((max 1 ((x * b) / a) : Nat) : Int)⟩
      else ⟨((max 1 ((y * a) / b) : Nat) : Int), (y : Int)⟩ := by
  simp only [fit]
  have h1 : ¬((x : Int) ≤ 0 ∨ (y : Int) ≤ 0) := by
    intro hcon
    rcases hcon with hc | hc <;> omega
  rw [if_neg h1]
  have h2 : ¬((a : Int) ≤ 0 ∨ (b : Int) ≤ 0) := by
    intro hcon
    rcases hcon with hc | hc <;> omega
  rw [if_neg h2]
  by_cases hin : a ≤ x ∧ b ≤ y
  · have hini : ((a : Int) ≤ x ∧ (b : Int) ≤ y) :=
      ⟨by exact_mod_cast hin.1, by exact_mod_cast hin.2⟩
    rw [if_pos hini, if_pos hin]
  · have hini : ¬((a : Int) ≤ x ∧ (b : Int) ≤ y) := by
      intro hcon
      exact hin ⟨by exact_mod_cast hcon.1, by exact_mod_cast hcon.2⟩
    rw [if_neg hini, if_neg hin]
    by_cases hasp : x * b < a * y
    · have haspi : (a : Int) * y > (x : Int) * b := by exact_mod_cast hasp
      rw [if_pos haspi, if_pos hasp]
      exact resize_fit_minor a b x ha hb hx
    · have haspi : ¬((a : Int) * y > (x : Int) * b) := by
        intro hcon
        exact hasp (by exact_mod_cast hcon)
      rw [if_neg haspi, if_neg hasp]
      exact resize_fit_major a b y ha hb hy

/-! Claim C2: fit mode. -/

/-- Claim C2 counterexample: a 50x50 source with a 100x100 fit preset is
returned unchanged (Fit never scales up), so the longer output dimension
is 50, not the box dimension 100. -/
theorem fit_longer_dimension_counterexample :
    fit ⟨50, 50⟩ 100 100 = ⟨50, 50⟩ ∧
    max (fit ⟨50, 50⟩ 100 100).w (fit ⟨50, 50⟩ 100 100).h = 50 ∧
    (50 : Int) ≠ 100 := by decide

/-- Claim C2 (amended): for every fit preset with positive box and every
positive source, the output fits in the box (outW ≤ W and outH ≤ H); a
source already inside the box is returned at its original size (no
upscaling, so no output dimension need equal a box dimension); a source
exceeding the box is scaled down so that the binding dimension equals its
box dimension — the width when the source aspect exceeds the box aspect
(sw*H > W*sh), the height otherwise — with the other dimension the
proportional value truncated to an integer (at least one pixel); and the
scenario holds: a 400x200 source with a 100x100 fit preset yields
100x50. -/
theorem fit_bounds_and_no_upscale (sw sh W H : Int)
    (hsw : 0 < sw) (hsh : 0 < sh) (hW : 0 < W) (hH : 0 < H) :
    (fit ⟨sw, sh⟩ W H).w ≤ W ∧ (fit ⟨sw, sh⟩ W H).h ≤ H ∧
    (sw ≤ W ∧ sh ≤ H → fit ⟨sw, sh⟩ W H = ⟨sw, sh⟩) ∧
    (¬(sw ≤ W ∧ sh ≤ H) →
      (sw * H > W * sh →
        (fit ⟨sw, sh⟩ W H).w = W ∧
        (fit ⟨sw, sh⟩ W H).h = max 1 (Int.tdiv (W * sh) sw)) ∧
      (sw * H ≤ W * sh →
        (fit ⟨sw, sh⟩ W H).h = H ∧
        (fit ⟨sw, sh⟩ W H).w = max 1 (Int.tdiv (H * sw) sh))) ∧
    fit ⟨400, 200⟩ 100 100 = ⟨100, 50⟩ := by
  obtain ⟨a, rfl⟩ := Int.eq_ofNat_of_zero_le hsw.le
  obtain ⟨b, rfl⟩ := Int.eq_ofNat_of_zero_le hsh.le
  obtain ⟨x, rfl⟩ := Int.eq_ofNat_of_zero_le hW.le
  obtain ⟨y, rfl⟩ := Int.eq_ofNat_of_zero_le hH.le
  have ha : 0 < a := by exact_mod_cast hsw
  have hb : 0 < b := by exact_mod_cast hsh
  have hx : 0 < x := by exact_mod_cast hW
  have hy : 0 < y := by exact_mod_cast hH
  rw [fit_char a b x y ha hb hx hy]
  by_cases hin : a ≤ x ∧ b ≤ y
  · rw [if_pos hin]
    exact ⟨by show (a : Int) ≤ (x : Int); exact_mod_cast hin.1,
      by show (b : Int) ≤ (y : Int); exact_mod_cast hin.2,
      fun _ => rfl,
      fun hni => absurd ⟨by exact_mod_cast hin.1, by exact_mod_cast hin.2⟩ hni,
      by decide⟩
  · rw [if_neg hin]
    have habs : ((a : Int) ≤ (x : Int) ∧ (b : Int) ≤ (y : Int)) → False := fun hcon =>
      hin ⟨by exact_mod_cast hcon.1, by exact_mod_cast hcon.2⟩
    by_cases hasp : x * b < a * y
    · rw [if_pos hasp]
      have hdlt : x * b / a < y := (Nat.div_lt_iff_lt_mul ha).mpr (Nat.mul_comm a y ▸ hasp)
      have hmaxle : max 1 (x * b / a) ≤ y := Nat.max_le.mpr ⟨hy, Nat.le_of_lt hdlt⟩
      have hcast : ((max 1 (x * b / a) : Nat) : Int) ≤ (y : Int) := by exact_mod_cast hmaxle
      have htc : Int.tdiv ((x : Int) * (b : Int)) (a : Int) = ((x * b / a : Nat) : Int) := by
        rw [show ((x : Int) * (b : Int)) = ((x * b : Nat) : Int) by push_cast; ring, tdiv_coe]
      have hminor : ((max 1 (x * b / a) : Nat) : Int) =
          max 1 (Int.tdiv ((x : Int) * (b : Int)) (a : Int)) := by
        rw [htc]
        push_cast
        rfl
      refine ⟨le_refl _, hcast, fun hcon => absurd hcon habs,
        fun hni => ⟨fun _ => ⟨rfl, hminor⟩, ?_⟩, by decide⟩
      intro hle
      exact absurd (by exact_mod_cast hle : a * y ≤ x * b) (by omega)
    · rw [if_neg hasp]
      push_neg at hasp
      have hle2 : y * a ≤ x * b := Nat.mul_comm a y ▸ hasp
      have hdle : y * a / b ≤ x := by
        calc y * a / b ≤ x * b / b := Nat.div_le_div_right hle2
        _ = x := Nat.mul_div_cancel x hb
      have hmaxle : max 1 (y * a / b) ≤ x := Nat.max_le.mpr ⟨hx, hdle⟩
      have hcast : ((max 1 (y * a / b) : Nat) : Int) ≤ (x : Int) := by exact_mod_cast hmaxle
      have htc : Int.tdiv ((y : Int) * (a : Int)) (b : Int) = ((y * a / b : Nat) : Int) := by
        rw [show ((y : Int) * (a : Int)) = ((y * a : Nat) : Int) by push_cast; ring, tdiv_coe]
      have hminor : ((max 1 (y * a / b) : Nat) : Int) =
          max 1 (Int.tdiv ((y : Int) * (a : Int)) (b : Int)) := by
        rw [htc]
        push_cast
        rfl
      refine ⟨hcast, le_refl _, fun hcon => absurd hcon habs,
        fun hni => ⟨?_, fun _ => ⟨rfl, hminor⟩⟩, by decide⟩
      intro haspi
      exact absurd (by exact_mod_cast haspi : x * b < a * y) (by omega)

/-- Witness for the C2 theorem at the scenario input: a 400x200 source
with a 100x100 fit box satisfies every amended conjunct and yields
100x50. -/
theorem fit_bounds_and_no_upscale_witness :
    (0 : Int) < 400 ∧ (0 : Int) < 200 ∧ (0 : Int) < 100 ∧
    ((fit ⟨400, 200⟩ 100 100).w ≤ 100 ∧ (fit ⟨400, 200⟩ 100 100).h ≤ 100 ∧
     ((400 : Int) ≤ 100 ∧ (200 : Int) ≤ 100 → fit ⟨400, 200⟩ 100 100 = ⟨400, 200⟩) ∧
     (¬((400 : Int) ≤ 100 ∧ (200 : Int) ≤ 100) →
       ((400 : Int) * 100 > 100 * 200 →
         (fit ⟨400, 200⟩ 100 100).w = 100 ∧
         (fit ⟨400, 200⟩ 100 100).h = max 1 (Int.tdiv ((100 : Int) * 200) 400)) ∧
       ((400 : Int) * 100 ≤ 100 * 200 →
         (fit ⟨400, 200⟩ 100 100).h = 100 ∧
         (fit ⟨400, 200⟩ 100 100).w = max 1 (Int.tdiv ((100 : Int) * 400) 200))) ∧
     fit ⟨400, 200⟩ 100 100 = ⟨100, 50⟩) :=
  ⟨by decide, by decide, by decide,
   fit_bounds_and_no_upscale 400 200 100 100 (by decide) (by decide) (by decide) (by decide)⟩

/-- image.Rect with nonnegative corner coordinates does not swap. -/
theorem mkRect_pos (W H : Int) (hW : 0 < W) (hH : 0 < H) :
    mkRect 0 0 W H = ⟨0, 0, W, H⟩ := by
  unfold mkRect
  have hw : ¬((0 : Int) > W) := by omega
  have hh : ¬((0 : Int) > H) := by omega
  simp only [if_neg hw, if_neg hh]

/-- Cropping a W-by-H window positioned wholly inside the source keeps
exactly W-by-H pixels. -/
theorem crop_window_dims (sw sh W H px py : Int) (hW : 0 < W) (hH : 0 < H)
    (hx0 : 0 ≤ px) (hxW : px + W ≤ sw) (hy0 : 0 ≤ py) (hyH : py + H ≤ sh) :
    Img.crop ⟨sw, sh⟩ ((mkRect 0 0 W H).add px py) = ⟨W, H⟩ := by
  rw [mkRect_pos W H hW hH]
  simp only [Img.crop, Img.bounds, Rect.add, Rect.inter]
  split_ifs with hc <;> simp only [Rect.dx, Rect.dy, Img.mk.injEq] <;> constructor <;> omega

/-- imaging.CropAnchor yields exactly the requested dimensions whenever
the target box fits inside the source, for every anchor. -/
theorem cropAnchor_exact (sw sh W H : Int) (an : Anchor) (hW : 0 < W) (hH : 0 < H)
    (h1 : W ≤ sw) (h2 : H ≤ sh) : cropAnchor ⟨sw, sh⟩ W H an = ⟨W, H⟩ := by
  have hdx := tdiv_two_bounds (sw - W) (by omega)
  have hdy := tdiv_two_bounds (sh - H) (by omega)
  cases an <;>
    simp only [cropAnchor, anchorRect, anchorPt, Img.bounds, Rect.dx, Rect.dy,
      sub_zero, zero_add] <;>
    apply crop_window_dims <;> omega

/-- imaging.Resize with two positive target dimensions and a nonempty
source yields exactly the target dimensions. -/
theorem resize_exact (iw ih w h : Int) (hiw : 0 < iw) (hih : 0 < ih)
    (hw : 0 < w) (hh : 0 < h) : resize ⟨iw, ih⟩ w h = ⟨w, h⟩ := by
  simp only [resize]
  rw [if_neg (by omega : ¬(w < 0 ∨ h < 0)), if_neg (by omega : ¬(w = 0 ∧ h = 0)),
    if_neg (by omega : ¬(iw ≤ 0 ∨ ih ≤ 0)), if_neg (by omega : ¬(w = 0)),
    if_neg (by omega : ¬(h = 0))]

/-- imaging.Resize with a fixed positive width and height zero recomputes
the height from the aspect ratio, rounded half-up with a one-pixel
minimum. -/
theorem resize_height_auto (a b x : Nat) (ha : 0 < a) (hb : 0 < b) (hx : 0 < x) :
    resize ⟨(a : Int), (b : Int)⟩ (x : Int) 0 =
      ⟨(x : Int), max 1 (((2 * (x * b) + a) / (2 * a) : Nat) : Int)⟩ := by
  have hru : roundHalfUp ((x : Int) * b) a = (((2 * (x * b) + a) / (2 * a) : Nat) : Int) := by
    rw [show ((x : Int) * b) = ((x * b : Nat) : Int) by push_cast; ring]
    exact roundHalfUp_coe _ _
  have hxne : ¬((x : Int) = 0) := by omega
  have hxlt : ¬((x : Int) < 0) := by omega
  have hab : ¬((a : Int) ≤ 0 ∨ (b : Int) ≤ 0) := by
    intro hcon
    rcases hcon with hc | hc <;> omega
  simp only [resize, and_true, true_and, lt_self_iff_false, or_false, false_or,
    eq_self_iff_true, if_true]
  rw [if_neg hxlt, if_neg hxne, if_neg hab, if_neg hxne, hru]

/-- imaging.Resize with a fixed positive height and width zero recomputes
the width from the aspect ratio, rounded half-up with a one-pixel
minimum. -/
theorem resize_width_auto (a b y : Nat) (ha : 0 < a) (hb : 0 < b) (hy : 0 < y) :
    resize ⟨(a : Int), (b : Int)⟩ 0 (y : Int) =
      ⟨max 1 (((2 * (y * a) + b) / (2 * b) : Nat) : Int), (y : Int)⟩ := by
  have hru : roundHalfUp ((y : Int) * a) b = (((2 * (y * a) + b) / (2 * b) : Nat) : Int) := by
    rw [show ((y : Int) * a) = ((y * a : Nat) : Int) by push_cast; ring]
    exact roundHalfUp_coe _ _
  have hyne : ¬((y : Int) = 0) := by omega
  have hylt : ¬((y : Int) < 0) := by omega
  have hab : ¬((a : Int) ≤ 0 ∨ (b : Int) ≤ 0) := by
    intro hcon
    rcases hcon with hc | hc <;> omega
  simp only [resize, and_true, true_and, lt_self_iff_false, or_false, false_or,
    eq_self_iff_true, if_true]
  rw [if_neg hylt, if_neg hyne, if_neg hab, if_neg hyne, hru]

/-- imaging.Fill yields exactly the requested dimensions whenever the
target box fits inside the source, for every anchor, along both the
crop-then-resize path (large sources) and the resize-then-crop path
(small sources). -/
theorem fill_exact (a b x y : Nat) (an : Anchor) (hx : 0 < x) (hy : 0 < y)
    (h1 : x ≤ a) (h2 : y ≤ b) :
    fill ⟨(a : Int), (b : Int)⟩ (x : Int) (y : Int) an = ⟨(x : Int), (y : Int)⟩ := by
  have ha : 0 < a := Nat.lt_of_lt_of_le hx h1
  have hb : 0 < b := Nat.lt_of_lt_of_le hy h2
  simp only [fill]
  rw [if_neg (show ¬((x : Int) ≤ 0 ∨ (y : Int) ≤ 0) by
      intro hcon; rcases hcon with hc | hc <;> omega),
    if_neg (show ¬((a : Int) ≤ 0 ∨ (b : Int) ≤ 0) by
      intro hcon; rcases hcon with hc | hc <;> omega)]
  by_cases heq : (a : Int) = (x : Int) ∧ (b : Int) = (y : Int)
  · rw [if_pos heq, heq.1, heq.2]
  · rw [if_neg heq]
    by_cases hbig : (100 : Int) ≤ (a : Int) ∧ (100 : Int) ≤ (b : Int)
    · rw [if_pos hbig]
      simp only [cropAndResize]
      by_cases hasp : (a : Int) * (y : Int) < (x : Int) * (b : Int)
      · rw [if_pos hasp]
        have haspN : a * y < x * b := by exact_mod_cast hasp
        have htc : Int.tdiv ((a : Int) * (y : Int)) (x : Int) = ((a * y / x : Nat) : Int) := by
          rw [show ((a : Int) * (y : Int)) = ((a * y : Nat) : Int) by push_cast; ring, tdiv_coe]
        rw [htc]
        have hdb : a * y / x < b := (Nat.div_lt_iff_lt_mul hx).mpr (Nat.mul_comm x b ▸ haspN)
        have hdbc : ((a * y / x : Nat) : Int) ≤ (b : Int) := by exact_mod_cast hdb.le
        have hbc : (1 : Int) ≤ (b : Int) := by exact_mod_cast hb
        have hcle : max 1 ((a * y / x : Nat) : Int) ≤ (b : Int) := by omega
        have hcpos : (0 : Int) < max 1 ((a * y / x : Nat) : Int) := by omega
        rw [cropAnchor_exact (a : Int) (b : Int) (a : Int) (max 1 ((a * y / x : Nat) : Int)) an
          (by exact_mod_cast ha) hcpos le_rfl hcle]
        exact resize_exact _ _ _ _ (by exact_mod_cast ha) hcpos
          (by exact_mod_cast hx) (by exact_mod_cast hy)
      · rw [if_neg hasp]
        have haspN : x * b ≤ a * y := by
          have := not_lt.mp hasp
          exact_mod_cast this
        have htc : Int.tdiv ((b : Int) * (x : Int)) (y : Int) = ((b * x / y : Nat) : Int) := by
          rw [show ((b : Int) * (x : Int)) = ((b * x : Nat) : Int) by push_cast; ring, tdiv_coe]
        rw [htc]
        have hda : b * x / y ≤ a := by
          have hle : b * x ≤ a * y := by
            calc b * x = x * b := Nat.mul_comm b x
            _ ≤ a * y := haspN
          calc b * x / y ≤ a * y / y := Nat.div_le_div_right hle
          _ = a := Nat.mul_div_cancel a hy
        have hdac : ((b * x / y : Nat) : Int) ≤ (a : Int) := by exact_mod_cast hda
        have hac : (1 : Int) ≤ (a : Int) := by exact_mod_cast ha
        have hcle : max 1 ((b * x / y : Nat) : Int) ≤ (a : Int) := by omega
        have hcpos : (0 : Int) < max 1 ((b * x / y : Nat) : Int) := by omega
        rw [cropAnchor_exact (a : Int) (b : Int) (max 1 ((b * x / y : Nat) : Int)) (b : Int) an
          hcpos (by exact_mod_cast hb) hcle le_rfl]
        exact resize_exact _ _ _ _ hcpos (by exact_mod_cast hb)
          (by exact_mod_cast hx) (by exact_mod_cast hy)
    · rw [if_neg hbig]
      simp only [resizeAndCrop]
      by_cases hasp : (a : Int) * (y : Int) < (x : Int) * (b : Int)
      · rw [if_pos hasp]
        have haspN : a * y < x * b := by exact_mod_cast hasp
        rw [resize_height_auto a b x ha hb hx]
        have hr : y ≤ (2 * (x * b) + a) / (2 * a) := by
          rw [Nat.le_div_iff_mul_le (by omega : 0 < 2 * a)]
          calc y * (2 * a) = 2 * (a * y) := by ring
          _ ≤ 2 * (x * b) := by omega
          _ ≤ 2 * (x * b) + a := Nat.le_add_right _ _
        have hrc : ((y : Nat) : Int) ≤ (((2 * (x * b) + a) / (2 * a) : Nat) : Int) := by
          exact_mod_cast hr
        exact cropAnchor_exact _ _ _ _ an (by exact_mod_cast hx) (by exact_mod_cast hy)
          le_rfl (by omega)
      · rw [if_neg hasp]
        have haspN : x * b ≤ a * y := by
          have := not_lt.mp hasp
          exact_mod_cast this
        rw [resize_width_auto a b y ha hb hy]
        have hr : x ≤ (2 * (y * a) + b) / (2 * b) := by
          rw [Nat.le_div_iff_mul_le (by omega : 0 < 2 * b)]
          calc x * (2 * b) = 2 * (x * b) := by ring
          _ ≤ 2 * (y * a) := by
            have : a * y = y * a := Nat.mul_comm a y
            omega
          _ ≤ 2 * (y * a) + b := Nat.le_add_right _ _
        have hrc : ((x : Nat) : Int) ≤ (((2 * (y * a) + b) / (2 * b) : Nat) : Int) := by
          exact_mod_cast hr
        exact cropAnchor_exact _ _ _ _ an (by exact_mod_cast hx) (by exact_mod_cast hy)
          (by omega) le_rfl

/-! Claim C3: crop and fill modes. -/

/-- Claim C3: for every preset with mode crop or fill and every source
at least as large as the positive target box, the transform output is
exactly (preset.width, preset.height), for every anchor; and the
scenario holds: a 200x200 source with a 100x100 center crop keeps
exactly the centered window (50,50)-(150,150), an output of exactly
100x100. -/
theorem crop_fill_exact_dimensions (sw sh W H : Int) (an : Anchor)
    (hW : 0 < W) (hH : 0 < H) (h1 : W ≤ sw) (h2 : H ≤ sh) :
    cropAnchor ⟨sw, sh⟩ W H an = ⟨W, H⟩ ∧
    fill ⟨sw, sh⟩ W H an = ⟨W, H⟩ ∧
    (∀ nm q aName, transform ⟨nm, W, H, q, str "crop", aName⟩ ⟨sw, sh⟩ = some ⟨W, H⟩) ∧
    (∀ nm q aName, transform ⟨nm, W, H, q, str "fill", aName⟩ ⟨sw, sh⟩ = some ⟨W, H⟩) ∧
    cropAnchorRect ⟨200, 200⟩ 100 100 Anchor.center = ⟨50, 50, 150, 150⟩ ∧
    cropAnchor ⟨200, 200⟩ 100 100 Anchor.center = ⟨100, 100⟩ := by
  obtain ⟨a, rfl⟩ := Int.eq_ofNat_of_zero_le (by omega : (0 : Int) ≤ sw)
  obtain ⟨b, rfl⟩ := Int.eq_ofNat_of_zero_le (by omega : (0 : Int) ≤ sh)
  obtain ⟨x, rfl⟩ := Int.eq_ofNat_of_zero_le hW.le
  obtain ⟨y, rfl⟩ := Int.eq_ofNat_of_zero_le hH.le
  have hxN : 0 < x := by exact_mod_cast hW
  have hyN : 0 < y := by exact_mod_cast hH
  have hxa : x ≤ a := by exact_mod_cast h1
  have hyb : y ≤ b := by exact_mod_cast h2
  have hcropall : ∀ an2 : Anchor, cropAnchor ⟨(a : Int), (b : Int)⟩ (x : Int) (y : Int) an2 =
      ⟨(x : Int), (y : Int)⟩ := fun an2 => cropAnchor_exact _ _ _ _ an2 hW hH h1 h2
  have hfillall : ∀ an2 : Anchor, fill ⟨(a : Int), (b : Int)⟩ (x : Int) (y : Int) an2 =
      ⟨(x : Int), (y : Int)⟩ := fun an2 => fill_exact a b x y an2 hxN hyN hxa hyb
  refine ⟨hcropall an, hfillall an, fun nm q aName => ?_, fun nm q aName => ?_,
    by decide, by decide⟩
  · simp only [transform, if_true]
    rw [hcropall (anchorMap aName)]
  · simp only [transform, if_true]
    rw [if_neg (by decide : ¬(str "fill" = str "crop")), hfillall (anchorMap aName)]

/-- Witness for the C3 theorem at the scenario input. -/
theorem crop_fill_exact_dimensions_witness :
    ((0 : Int) < 100 ∧ (100 : Int) ≤ 200) ∧
    cropAnchor ⟨200, 200⟩ 100 100 Anchor.center = ⟨100, 100⟩ ∧
    fill ⟨200, 200⟩ 100 100 Anchor.center = ⟨100, 100⟩ :=
  ⟨⟨by decide, by decide⟩,
   (crop_fill_exact_dimensions 200 200 100 100 Anchor.center
      (by decide) (by decide) (by decide) (by decide)).1,
   (crop_fill_exact_dimensions 200 200 100 100 Anchor.center
      (by decide) (by decide) (by decide) (by decide)).2.1⟩

end ImageResizerGo
